import Mathlib

/-!
Verification development for the "Consulente Ricette" expert system
(`main.py`, `src/SistemaEsperto/consulenteRicette.py`,
`src/ClassiSupporto/interfacciaConUtente.py`).

The rule base, the rule actions and the user-interface helpers are
translated from the Python sources.  The forward-chaining engine itself
(fact store, condition evaluator, salience agenda, refraction) lives in
the external `experta` library, whose code is not part of the repository;
those definitions are modelled from the specification (sections 3, 4.1,
4.2 and 4.3 of the spec) and are marked `Modelled from the spec:` below.
User input is modelled as a list of pending input lines; the Bayesian
evaluator and the ontology lookup are modelled as oracles carried in the
engine state.
-/

namespace ConsulenteRicette

/-- Modelled from the spec: a working-memory fact (spec section 3).  Every
fact declared by this rule base has exactly one named field with a string
value (for example `azione="trovaRicetta"`), so a fact is one field/value
pair.  Facts are compared by content. -/
structure Fact where
  field : String
  value : String
deriving DecidableEq, Repr

/-- Python `str.strip` restricted to the whitespace characters that occur
in console input. -/
def isSpazio (c : Char) : Bool :=
  c = ' ' ∨ c = '\t' ∨ c = '\n' ∨ c = '\r'

/-- Python `str.strip`: drop whitespace from both ends. -/
def pyStrip (s : String) : String :=
  ⟨((s.data.dropWhile isSpazio).reverse.dropWhile isSpazio).reverse⟩

/-- Python `str.lower` (ASCII letters, which is all this program feeds it). -/
def pyLower (s : String) : String :=
  ⟨s.data.map Char.toLower⟩

/-- Splitting helper for `pySplitComma`, accumulating the current piece. -/
def spezzaVirgole : List Char → List Char → List (List Char)
  | [], cur => [cur.reverse]
  | c :: rest, cur =>
    if c = ',' then cur.reverse :: spezzaVirgole rest []
    else spezzaVirgole rest (c :: cur)

/-- Python `str.split(',')`. -/
def pySplitComma (s : String) : List String :=
  (spezzaVirgole s.data []).map (fun cs => ⟨cs⟩)

/-- Digit-string accumulator for `pyInt?`. -/
def cifreAux : List Char → Nat → Option Nat
  | [], acc => some acc
  | c :: rest, acc =>
    if c.isDigit then cifreAux rest (acc * 10 + (c.toNat - 48)) else none

/-- Reads a nonempty all-digit character list as a natural number. -/
def cifreANat? : List Char → Option Nat
  | [] => none
  | cs => cifreAux cs 0

/-- Python `int(s)` on console input: optional sign followed by digits,
surrounding whitespace ignored; `none` models the `ValueError` branch. -/
def pyInt? (s : String) : Option Int :=
  match (pyStrip s).data with
  | '+' :: cs => (cifreANat? cs).map Int.ofNat
  | '-' :: cs => (cifreANat? cs).map (fun n => -(Int.ofNat n))
  | cs => (cifreANat? cs).map Int.ofNat

/-- Translation of `interfacciaConUtente.converti_tempo_in_categoria`. -/
def converti_tempo_in_categoria (minuti : Int) : String :=
  if minuti ≤ 20 then "poco"
  else if minuti ≤ 60 then "medio"
  else "molto"

/-- Translation of `interfacciaConUtente.converti_tempo_in_indice`. -/
def converti_tempo_in_indice (categoria_tempo : String) : Nat :=
  if categoria_tempo = "poco" then 0
  else if categoria_tempo = "medio" then 1
  else if categoria_tempo = "molto" then 2
  else 1

/-- Translation of `interfacciaConUtente.chiedi_ingredienti_disponibili`,
as a function of the single input line it reads. -/
def chiedi_ingredienti_disponibili (risposta : String) : List String :=
  let r := pyStrip risposta
  if r = "" then []
  else (pySplitComma r).map (fun ing => pyLower (pyStrip ing))

/-- Translation of `interfacciaConUtente.chiedi_tempo_disponibile`: reads
input lines until one parses as a positive integer, converts it to a time
category and returns it together with the unread lines.  `none` models the
loop blocking forever because no valid line is ever supplied. -/
def chiedi_tempo_disponibile : List String → Option (String × List String)
  | [] => none
  | risposta :: rest =>
    match pyInt? (pyStrip risposta) with
    | none => chiedi_tempo_disponibile rest
    | some minuti =>
      if minuti ≤ 0 then chiedi_tempo_disponibile rest
      else some (converti_tempo_in_categoria minuti, rest)

/-- Translation of `interfacciaConUtente.chiedi_preferenze_alimentari`,
as a function of the single input line it reads. -/
def chiedi_preferenze_alimentari (rispostaRaw : String) : List String :=
  let risposta := pyLower (pyStrip rispostaRaw)
  if risposta = "" ∨ risposta = "nessuna" then []
  else (pySplitComma risposta).map pyStrip

/-- Translation of the recipe-selection `while` loop inside
`ConsulenteRicette.scegli_candidati`: reads lines until one parses as an
integer in `[1, n]` and returns it (as a `Nat`) with the unread lines. -/
def leggi_scelta_ricetta (n : Nat) : List String → Option (Nat × List String)
  | [] => none
  | risposta :: rest =>
    match pyInt? (pyStrip risposta) with
    | none => leggi_scelta_ricetta n rest
    | some scelta =>
      if scelta < 1 ∨ (n : Int) < scelta then leggi_scelta_ricetta n rest
      else some (scelta.toNat, rest)

/-- Translation of the network-choice `while` loop inside
`interfacciaConUtente.calcola_rischio_o_successo_ricetta`: reads lines
until one is `"1"` or `"2"`. -/
def leggi_scelta_rete : List String → Option (String × List String)
  | [] => none
  | risposta :: rest =>
    let r := pyStrip risposta
    if r = "1" ∨ r = "2" then some (r, rest) else leggi_scelta_rete rest

/-- Translation of the `s`/`n` loop inside
`ConsulenteRicette.stampare_risultato_finale`. -/
def leggi_sn : List String → Option (String × List String)
  | [] => none
  | risposta :: rest =>
    let r := pyLower (pyStrip risposta)
    if r = "s" ∨ r = "n" then some (r, rest) else leggi_sn rest

/-- Outcome of the Bayesian machinery behind
`calcola_rischio_o_successo_ricetta`, abstracting `retiBayesiane`:
network construction may raise, inference may raise, the query result may
lack the `"Successo"` node (`KeyError`), the probability cell may fail
float conversion, or a probability is produced. -/
inductive BayesOutcome where
  | constructionError
  | inferenceError
  | missingSuccessNode
  | nonNumeric
  | ok (p : ℚ)
deriving DecidableEq, Repr

/-- Success percentage `round(valore_successo * 100, 2)` as an exact
rational, computed on numerator and denominator (half-up rounding of
`p * 10000` over 100; Python's banker tie-breaking and float decimal
rendering are abstracted, no claim depends on the success-message text). -/
def percentualeArrotondata (p : ℚ) : ℚ :=
  mkRat (Int.fdiv (2 * (p.num * 10000) + (p.den : ℤ)) (2 * (p.den : ℤ))) 100

/-- Translation of `interfacciaConUtente.calcola_rischio_o_successo_ricetta`.
`fatti` is the optional `'tempo'` entry of the `fatti` dict built by the
caller; the function consumes input lines for the network-choice prompt
and returns the message string together with the unread lines.  The
dataset-learning branch (choice `"2"`) only swaps which concrete network
is queried, and every failure there falls back to the default network, so
the inference outcome is the single abstract `BayesOutcome` either way. -/
def calcola_rischio_o_successo_ricetta (_nome_ricetta : String)
    (fatti : Option String) (bayes : BayesOutcome) (inputs : List String) :
    Option (String × List String) :=
  match bayes with
  | .constructionError => some ("Valutazione non disponibile.", inputs)
  | esito =>
    let _evidenza : List (String × Nat) :=
      match fatti with
      | some t => [("Tempo", converti_tempo_in_indice t)]
      | none => []
    match leggi_scelta_rete inputs with
    | none => none
    | some (_scelta_rete, rest) =>
      match esito with
      | .ok p =>
        some ("Probabilità di successo stimata: "
              ++ toString (percentualeArrotondata p) ++ "%", rest)
      | _ => some ("Impossibile calcolare la stima.", rest)

/-- Modelled from the spec: a rule condition (spec section 3) as used by
this rule base — `FieldEquals` (`Fact(f=v)` patterns), `Exists`
(`Fact(f=W())` and `Fact(f=MATCH.x)` patterns, which bind the matched
value), `Or` and `Not`. -/
inductive Cond where
  | eqF (field value : String)
  | existsF (field : String)
  | orC (a b : Cond)
  | notC (c : Cond)
deriving DecidableEq, Repr

/-- Modelled from the spec: a binding records, for each condition of a
rule, the stamped fact it matched (`none` for a `Not` condition, which
introduces no variables).  Two activations are equal iff rule and binding
are equal (spec section 3). -/
abbrev Binding := List (Option (Nat × Fact))

/-- Modelled from the spec: an activation is a (rule, binding) pair; the
rule is its index in the declaration-ordered rule table. -/
abbrev Activation := Nat × Binding

/-- Modelled from the spec: whether a condition has at least one
satisfying match in the store (used for negation as failure, spec
section 4.2; the `Not` conditions of this rule base are variable-free). -/
def condSat (s : List (Nat × Fact)) : Cond → Bool
  | .eqF f v => s.any (fun e => e.2.field == f && e.2.value == v)
  | .existsF f => s.any (fun e => e.2.field == f)
  | .orC a b => condSat s a || condSat s b
  | .notC c => !condSat s c

/-- Modelled from the spec: the matches of one condition against the
store — one entry per matching fact, in fact insertion order; `Or` unions
its branches; `Not` yields a single variable-free match when its
subcondition is unsatisfiable and nothing otherwise (spec section 4.2). -/
def condMatches (s : List (Nat × Fact)) : Cond → List (Option (Nat × Fact))
  | .eqF f v => (s.filter (fun e => e.2.field == f && e.2.value == v)).map some
  | .existsF f => (s.filter (fun e => e.2.field == f)).map some
  | .orC a b => condMatches s a ++ condMatches s b
  | .notC c => if condSat s c then [] else [none]

/-- Modelled from the spec: all bindings of a conjunctive condition list
(spec section 4.2).  The rules of this program share no variables between
conditions, so the left-to-right narrowing join is the product of the
per-condition match lists. -/
def ruleBindings (s : List (Nat × Fact)) : List Cond → List Binding
  | [] => [[]]
  | c :: rest =>
    (condMatches s c).flatMap (fun m => (ruleBindings s rest).map (fun b => m :: b))

/-- Static data of one rule: its method name, condition list and salience,
as declared in `consulenteRicette.py`. -/
structure Regola where
  nome : String
  conds : List Cond
  salience : ℚ
deriving DecidableEq, Repr

/-- The rule table of `ConsulenteRicette`, in declaration order, with the
conditions and salience values of the `@Rule` decorators. -/
def regole : List Regola := [
  ⟨"chiedi_ingredienti", [.eqF "azione" "chiediIngredienti"], 10⟩,
  ⟨"chiedi_tempo", [.eqF "azione" "chiediTempo"], 9⟩,
  ⟨"chiedi_preferenze", [.eqF "azione" "chiediPreferenze"], 8⟩,
  ⟨"suggerisci_pasta_pomodoro",
    [.eqF "azione" "trovaRicetta", .eqF "ingrediente" "pasta",
     .eqF "ingrediente" "pomodoro",
     .orC (.eqF "tempo_disponibile" "medio") (.eqF "tempo_disponibile" "molto")], 1⟩,
  ⟨"suggerisci_uova_strapazzate",
    [.eqF "azione" "trovaRicetta", .eqF "ingrediente" "uova",
     .eqF "tempo_disponibile" "poco"], 1⟩,
  ⟨"suggerisci_insalata",
    [.eqF "azione" "trovaRicetta", .eqF "ingrediente" "lattuga",
     .eqF "ingrediente" "pomodoro", .eqF "tempo_disponibile" "poco"], 1⟩,
  ⟨"scegli_candidati",
    [.eqF "azione" "trovaRicetta", .existsF "candidato"], mkRat 1 2⟩,
  ⟨"nessuna_ricetta_trovata",
    [.eqF "azione" "trovaRicetta", .notC (.existsF "candidato")], 0⟩,
  ⟨"valuta_ricetta_con_bayes",
    [.eqF "azione" "valutaRicetta", .existsF "ricetta_suggerita"], mkRat (-1) 2⟩,
  ⟨"stampare_risultato_finale",
    [.eqF "azione" "stampaRisultato", .existsF "ricetta_suggerita",
     .existsF "valutazione_ricetta"], -1⟩,
  ⟨"terminare_esecuzione", [.eqF "azione" "termina"], -10⟩]

/-- Observable collaborator calls and user-visible interactions performed
by rule actions (the recorded trace of a consultation). -/
inductive Event where
  | evalBayes (ricetta : String) (tempo : Option String)
  | partialSearch (ingredienti : List String)
  | promptCandidates (candidati : List String)
  | ontologyLookup (nome : String)
deriving DecidableEq, Repr

/-- Result record of `trova_dettagli_ricetta_in_ontologia` (the
Knowledge-Base Lookup collaborator): optional preparation time,
description and alternative-recipe name. -/
structure Dettagli where
  tempo : Option Nat
  descrizione : Option String
  alternativa : Option String

/-- Modelled from the spec: the engine state — stamped fact store (spec
section 4.1; the stamp records assertion order for the recency
tie-break), assertion counter, refraction set of fired activations (spec
section 4.3), a log of fired rules (each entry also records whether the
halt fact `azione="termina"` was already asserted before that firing),
the collaborator-call trace, the pending user-input lines, and the two
collaborator oracles. -/
structure EngineState where
  store : List (Nat × Fact)
  nextStamp : Nat
  fired : List Activation
  firedLog : List (String × Bool)
  trace : List Event
  inputs : List String
  bayes : BayesOutcome
  onto : String → Option Dettagli

/-- Modelled from the spec: fact assertion (spec section 4.1) —
re-asserting a fact whose content is already present is a no-op,
otherwise the fact is appended with a fresh stamp. -/
def declare (st : EngineState) (f : Fact) : EngineState :=
  if st.store.any (fun e => e.2 == f) then st
  else { st with store := st.store ++ [(st.nextStamp, f)],
                 nextStamp := st.nextStamp + 1 }

/-- Asserts a list of facts in order (a rule action's `self.declare`
calls, in source order). -/
def declareAll (st : EngineState) (fs : List Fact) : EngineState :=
  fs.foldl declare st

/-- Modelled from the spec: fact retraction together with the refraction
cleanup of spec section 4.3 step 4 — activations a retracted fact was
supporting are dropped from the refraction set.  No action of this rule
base ever retracts a fact. -/
def supportiPresenti (store : List (Nat × Fact)) (b : Binding) : Bool :=
  b.all (fun m => match m with | none => true | some e => store.contains e)

/-- Modelled from the spec: retract a fact by content (spec section 4.1)
and drop from the refraction set the activations that lost a support. -/
def retract (st : EngineState) (f : Fact) : EngineState :=
  let store := st.store.filter (fun e => !(e.2 == f))
  { st with store := store,
            fired := st.fired.filter (fun a => supportiPresenti store a.2) }

/-- Everything a rule action does besides logging: the facts it declares
(in order), the collaborator events it produces, and the input lines left
unread. -/
structure Esito where
  nuoviFatti : List Fact
  eventi : List Event
  inputsRimasti : List String

/-- Applies an action's outcome to the engine state: record the events,
consume the input, then assert the declared facts in order. -/
def applicaEsito (st : EngineState) (e : Esito) : EngineState :=
  declareAll { st with trace := st.trace ++ e.eventi,
                       inputs := e.inputsRimasti } e.nuoviFatti

/-- Value bound by condition `i` of a binding (the `MATCH` variables of
`consulenteRicette.py`). -/
def valoreLegato (b : Binding) (i : Nat) : String :=
  match b.get? i with
  | some (some e) => e.2.value
  | _ => ""

/-- Keep the first occurrence of each string (the model's fixed order for
Python's unordered `set` iteration in `scegli_candidati`). -/
def dedupPrimo : List String → List String → List String
  | [], _ => []
  | x :: xs, visti =>
    if visti.contains x then dedupPrimo xs visti
    else x :: dedupPrimo xs (x :: visti)

/-- The distinct `candidato` values in working memory, in assertion order
(the `candidati` set built by `scegli_candidati`). -/
def candidatiDi (store : List (Nat × Fact)) : List String :=
  dedupPrimo ((store.filter (fun e => e.2.field == "candidato")).map
    (fun e => e.2.value)) []

/-- The `'tempo'` entry of the `fatti_per_bayes` dict built by
`valuta_ricetta_con_bayes`: the value of the last `tempo_disponibile`
fact, if any (later dict assignments win). -/
def tempoNeiFatti (store : List (Nat × Fact)) : Option String :=
  ((store.filter (fun e => e.2.field == "tempo_disponibile")).map
    (fun e => e.2.value)).getLast?

/-- Action of rule `chiedi_ingredienti` (salience 10): read one line of
ingredients; on an empty list assert `azione="termina"` and stop,
otherwise assert one `ingrediente` fact per ingredient and
`azione="chiediTempo"`. -/
def chiedi_ingredienti (st : EngineState) : Option Esito :=
  match st.inputs with
  | [] => none
  | risposta :: rest =>
    let ingredienti_utente := chiedi_ingredienti_disponibili risposta
    if ingredienti_utente.isEmpty then
      some ⟨[⟨"azione", "termina"⟩], [], rest⟩
    else
      some ⟨(ingredienti_utente.map
               (fun i => ⟨"ingrediente", pyLower (pyStrip i)⟩))
              ++ [⟨"azione", "chiediTempo"⟩], [], rest⟩

/-- Action of rule `chiedi_tempo` (salience 9). -/
def chiedi_tempo (st : EngineState) : Option Esito :=
  match chiedi_tempo_disponibile st.inputs with
  | none => none
  | some (tempo, rest) =>
    some ⟨[⟨"tempo_disponibile", tempo⟩, ⟨"azione", "chiediPreferenze"⟩], [], rest⟩

/-- Action of rule `chiedi_preferenze` (salience 8). -/
def chiedi_preferenze (st : EngineState) : Option Esito :=
  match st.inputs with
  | [] => none
  | risposta :: rest =>
    let prefs := chiedi_preferenze_alimentari risposta
    some ⟨(prefs.map (fun p => ⟨"preferenza", pyLower (pyStrip p)⟩))
            ++ [⟨"azione", "trovaRicetta"⟩], [], rest⟩

/-- Action of rule `suggerisci_pasta_pomodoro` (salience 1). -/
def suggerisci_pasta_pomodoro (st : EngineState) : Option Esito :=
  some ⟨[⟨"candidato", "Pasta al Pomodoro"⟩], [], st.inputs⟩

/-- Action of rule `suggerisci_uova_strapazzate` (salience 1). -/
def suggerisci_uova_strapazzate (st : EngineState) : Option Esito :=
  some ⟨[⟨"candidato", "Uova Strapazzate"⟩], [], st.inputs⟩

/-- Action of rule `suggerisci_insalata` (salience 1). -/
def suggerisci_insalata (st : EngineState) : Option Esito :=
  some ⟨[⟨"candidato", "Insalata Mista"⟩], [], st.inputs⟩

/-- Action of rule `scegli_candidati` (salience 0.5): collect the distinct
candidates; with exactly one, select it silently; otherwise print the
numbered list (recorded as a `promptCandidates` event) and loop until an
in-range selection is read. -/
def scegli_candidati (st : EngineState) : Option Esito :=
  let candidati_lista := candidatiDi st.store
  if candidati_lista.length = 1 then
    some ⟨[⟨"ricetta_suggerita", candidati_lista.headD ""⟩,
           ⟨"azione", "valutaRicetta"⟩], [], st.inputs⟩
  else
    match leggi_scelta_ricetta candidati_lista.length st.inputs with
    | none => none
    | some (scelta, rest) =>
      some ⟨[⟨"ricetta_suggerita", candidati_lista.getD (scelta - 1) ""⟩,
             ⟨"azione", "valutaRicetta"⟩],
            [Event.promptCandidates candidati_lista], rest⟩

/-- Action of rule `nessuna_ricetta_trovata` (salience 0): gather the
asserted ingredients; when some exist, invoke the partial-match ontology
lookup; in either case assert `azione="termina"`. -/
def nessuna_ricetta_trovata (st : EngineState) : Option Esito :=
  let ingredienti_utente :=
    (st.store.filter (fun e => e.2.field == "ingrediente")).map (fun e => e.2.value)
  if ingredienti_utente.isEmpty then
    some ⟨[⟨"azione", "termina"⟩], [], st.inputs⟩
  else
    some ⟨[⟨"azione", "termina"⟩], [Event.partialSearch ingredienti_utente], st.inputs⟩

/-- Action of rule `valuta_ricetta_con_bayes` (salience −0.5): build the
evidence dict from the `tempo_disponibile` fact, call the Evidence
Evaluator (recorded as an `evalBayes` event) and assert the resulting
message and `azione="stampaRisultato"`. -/
def valuta_ricetta_con_bayes (st : EngineState) (b : Binding) : Option Esito :=
  let ricetta := valoreLegato b 1
  let fatti_per_bayes := tempoNeiFatti st.store
  match calcola_rischio_o_successo_ricetta ricetta fatti_per_bayes st.bayes st.inputs with
  | none => none
  | some (rischio_o_successo, rest) =>
    some ⟨[⟨"valutazione_ricetta", rischio_o_successo⟩,
           ⟨"azione", "stampaRisultato"⟩],
          [Event.evalBayes ricetta fatti_per_bayes], rest⟩

/-- Action of rule `stampare_risultato_finale` (salience −1): look the
suggested recipe up in the ontology (via `_stampa_dettagli_ricetta`);
when an alternative is reported, loop on the `s`/`n` prompt and, on `s`,
look the alternative up too; finally assert `azione="termina"`. -/
def stampare_risultato_finale (st : EngineState) (b : Binding) : Option Esito :=
  let ricetta := valoreLegato b 1
  let nome_alternativa := (st.onto ricetta).bind (fun d => d.alternativa)
  match nome_alternativa with
  | none => some ⟨[⟨"azione", "termina"⟩], [Event.ontologyLookup ricetta], st.inputs⟩
  | some alt =>
    match leggi_sn st.inputs with
    | none => none
    | some (risposta, rest) =>
      if risposta = "s" then
        some ⟨[⟨"azione", "termina"⟩],
              [Event.ontologyLookup ricetta, Event.ontologyLookup alt], rest⟩
      else
        some ⟨[⟨"azione", "termina"⟩], [Event.ontologyLookup ricetta], rest⟩

/-- Action of rule `terminare_esecuzione` (salience −10): only logs the
closing banner; it neither asserts facts nor halts the engine. -/
def terminare_esecuzione (st : EngineState) : Option Esito :=
  some ⟨[], [], st.inputs⟩

/-- Dispatches a fired rule (by its index in `regole`) to its action. -/
def corpoRegola (i : Nat) (b : Binding) (st : EngineState) : Option Esito :=
  match i with
  | 0 => chiedi_ingredienti st
  | 1 => chiedi_tempo st
  | 2 => chiedi_preferenze st
  | 3 => suggerisci_pasta_pomodoro st
  | 4 => suggerisci_uova_strapazzate st
  | 5 => suggerisci_insalata st
  | 6 => scegli_candidati st
  | 7 => nessuna_ricetta_trovata st
  | 8 => valuta_ricetta_con_bayes st b
  | 9 => stampare_risultato_finale st b
  | _ => terminare_esecuzione st

/-- Salience of the rule with the given index. -/
def salienceOf (i : Nat) : ℚ :=
  ((regole.get? i).map Regola.salience).getD 0

/-- Name of the rule with the given index. -/
def nomeRegola (i : Nat) : String :=
  ((regole.get? i).map Regola.nome).getD ""

/-- Modelled from the spec: the cycle at which a binding became enabled —
the stamp of the most recently asserted fact supporting it (spec section
4.3 step 2). -/
def enabledStamp (b : Binding) : Nat :=
  b.foldl (fun acc m => match m with | some e => max acc e.1 | none => acc) 0

/-- Modelled from the spec: the agenda (spec section 4.3 step 1) — every
(rule, binding) whose conditions are currently satisfied and which is not
in the refraction set, listed in rule declaration order and, per rule, in
binding insertion order. -/
def agenda (st : EngineState) : List Activation :=
  regole.enum.flatMap (fun p =>
    ((ruleBindings st.store p.2.conds).filter
        (fun b => !(st.fired.contains (p.1, b)))).map (fun b => (p.1, b)))

/-- Modelled from the spec: conflict-resolution order (spec section 4.3
step 2) — `a` beats `b` iff `a` has strictly higher salience, or equal
salience and a more recently enabled binding. -/
def keyGt (a b : Activation) : Bool :=
  decide (salienceOf b.1 < salienceOf a.1 ∨
    (salienceOf a.1 = salienceOf b.1 ∧ enabledStamp b.2 < enabledStamp a.2))

/-- Left fold keeping the first activation that is strictly best under
`keyGt` (remaining ties therefore resolve to rule declaration order, then
binding insertion order). -/
def migliore (l : List Activation) (a : Activation) : Activation :=
  l.foldl (fun best c => if keyGt c best then c else best) a

/-- Modelled from the spec: pick the activation to fire — the maximal
agenda entry under salience, then recency, then declaration order, then
binding insertion order (spec section 4.3 step 2); `none` means
quiescence. -/
def selectActivation (st : EngineState) : Option Activation :=
  match agenda st with
  | [] => none
  | a :: rest => some (migliore rest a)

/-- Whether the halt fact `azione="termina"` is asserted. -/
def terminaPresente (store : List (Nat × Fact)) : Bool :=
  store.any (fun e => e.2 == Fact.mk "azione" "termina")

/-- State just before a fired activation's action runs: the activation
has been added to the refraction set and the firing has been logged
(together with whether the halt fact was already present). -/
def preFire (st : EngineState) (a : Activation) : EngineState :=
  { st with
    fired := a :: st.fired,
    firedLog := st.firedLog ++ [(nomeRegola a.1, terminaPresente st.store)] }

/-- Modelled from the spec: fire one activation (spec section 4.3 step 3)
— add it to the refraction set, log the firing, and execute its action;
`none` means the action blocked forever on user input. -/
def fireActivation (st : EngineState) (a : Activation) : Option EngineState :=
  (corpoRegola a.1 a.2 (preFire st a)).map (applicaEsito (preFire st a))

/-- Modelled from the spec: run up to `n` agenda cycles (spec section 4.3
steps 1–5).  Quiescence returns the state unchanged, so with enough fuel
the result is the final state of the consultation; `none` means some
action blocked forever on user input. -/
def steps : Nat → EngineState → Option EngineState
  | 0, st => some st
  | n + 1, st =>
    match selectActivation st with
    | none => some st
    | some a =>
      match fireActivation st a with
      | none => none
      | some st1 => steps n st1

/-- The state `avvia_consulente_ricette` starts from: after `reset()` the
`DefFacts` block has asserted `azione="chiediIngredienti"`, nothing has
fired, and the consultation is parametrised by the pending input lines
and the two collaborator oracles. -/
def statoIniziale (inputs : List String) (bayes : BayesOutcome)
    (onto : String → Option Dettagli) : EngineState :=
  { store := [(0, ⟨"azione", "chiediIngredienti"⟩)]
    nextStamp := 1
    fired := []
    firedLog := []
    trace := []
    inputs := inputs
    bayes := bayes
    onto := onto }

/-- A state whose working memory holds exactly the given facts (stamped
in list order) and where nothing has fired yet: the seeded scenarios of
spec section 8. -/
def statoConFatti (fatti : List Fact) (inputs : List String)
    (bayes : BayesOutcome) (onto : String → Option Dettagli) : EngineState :=
  { store := fatti.enum.map (fun p => (p.1, p.2))
    nextStamp := fatti.length
    fired := []
    firedLog := []
    trace := []
    inputs := inputs
    bayes := bayes
    onto := onto }

/-- Facts of a state, without stamps. -/
def fattiDi (st : EngineState) : List Fact :=
  st.store.map (fun e => e.2)

/-- The fact store never holds two facts with the same content (spec
section 3, invariants). -/
def NodupStore (st : EngineState) : Prop :=
  (fattiDi st).Nodup

/-- Number of `promptCandidates` events in a trace (how many times the
candidate list was presented for manual selection). -/
def contaPrompt (tr : List Event) : Nat :=
  (tr.filter (fun e => match e with
    | Event.promptCandidates _ => true | _ => false)).length

/-- Number of `evalBayes` events in a trace (how many times the Evidence
Evaluator was called). -/
def contaEval (tr : List Event) : Nat :=
  (tr.filter (fun e => match e with
    | Event.evalBayes _ _ => true | _ => false)).length

/-- Number of firings of the rule with the given name in a firing log. -/
def contaAccensioni (log : List (String × Bool)) (nome : String) : Nat :=
  (log.filter (fun p => p.1 == nome)).length

/-- Spec section 8, first scenario: working memory seeded with
`ingrediente=pasta`, `ingrediente=pomodoro`, `tempo_disponibile=medio`
and `azione=trovaRicetta`; one pending input line for the network-choice
prompt; the Bayesian inference succeeds with probability 4/5; the
ontology has no entry for the recipe. -/
def scenarioUnicoCandidato : EngineState :=
  statoConFatti
    [⟨"ingrediente", "pasta"⟩, ⟨"ingrediente", "pomodoro"⟩,
     ⟨"tempo_disponibile", "medio"⟩, ⟨"azione", "trovaRicetta"⟩]
    ["1"] (.ok (mkRat 4 5)) (fun _ => none)

/-- The same seeded scenario, but every Bayesian inference raises: the
collaborator fails and the engine must fall back. -/
def scenarioErroreBayes : EngineState :=
  statoConFatti
    [⟨"ingrediente", "pasta"⟩, ⟨"ingrediente", "pomodoro"⟩,
     ⟨"tempo_disponibile", "medio"⟩, ⟨"azione", "trovaRicetta"⟩]
    ["1"] .inferenceError (fun _ => none)

/-- A full consultation in which the user answers the ingredient prompt
with an empty line. -/
def scenarioVuoto : EngineState :=
  statoIniziale [""] (.ok (mkRat 4 5)) (fun _ => none)

/-- A full consultation: ingredients `pasta, pomodoro`, 30 minutes, no
preferences, then `1` at the network-choice prompt. -/
def scenarioInterattivo : EngineState :=
  statoIniziale ["pasta, pomodoro", "30", "", "1"] (.ok (mkRat 4 5)) (fun _ => none)

/-- A full consultation in which two candidate rules are satisfied
simultaneously: ingredients `uova, lattuga, pomodoro` and 10 minutes
satisfy both `suggerisci_uova_strapazzate` and `suggerisci_insalata`.
The input script answers the selection prompt with `1`, then (because the
prompt recurs) with `2`, then `1` twice at the network-choice prompts. -/
def scenarioDueCandidati : EngineState :=
  statoIniziale ["uova, lattuga, pomodoro", "10", "", "1", "2", "1", "1"]
    (.ok (mkRat 4 5)) (fun _ => none)

/-- A full consultation whose ingredient (`riso`) matches no candidate
rule: ingredients `riso`, 30 minutes, no preferences. -/
def scenarioSenzaCandidati : EngineState :=
  statoIniziale ["riso", "30", ""] (.ok (mkRat 4 5)) (fun _ => none)

theorem declare_fired (st : EngineState) (f : Fact) :
    (declare st f).fired = st.fired := by
  unfold declare; split <;> rfl

theorem declare_mem (st : EngineState) (f : Fact) {e : Nat × Fact}
    (h : e ∈ st.store) : e ∈ (declare st f).store := by
  unfold declare; split
  · exact h
  · simp only [List.mem_append]; exact Or.inl h

theorem declare_nodup (st : EngineState) (f : Fact)
    (h : NodupStore st) : NodupStore (declare st f) := by
  unfold declare; split
  · exact h
  · rename_i hany
    unfold NodupStore fattiDi at h ⊢
    simp only [List.map_append, List.map_cons, List.map_nil]
    rw [List.nodup_append]
    refine ⟨h, List.nodup_singleton f, ?_⟩
    intro x hx hx2
    simp only [List.mem_singleton] at hx2
    subst hx2
    simp only [List.any_eq_true, beq_iff_eq, not_exists, not_and] at hany
    simp only [List.mem_map] at hx
    obtain ⟨e, he, hef⟩ := hx
    exact hany e he hef

theorem declareAll_fired (fs : List Fact) (st : EngineState) :
    (declareAll st fs).fired = st.fired := by
  induction fs generalizing st with
  | nil => rfl
  | cons f fs ih =>
    unfold declareAll at ih ⊢
    simp only [List.foldl_cons]
    rw [ih, declare_fired]

theorem declareAll_mem (fs : List Fact) (st : EngineState) {e : Nat × Fact}
    (h : e ∈ st.store) : e ∈ (declareAll st fs).store := by
  induction fs generalizing st with
  | nil => exact h
  | cons f fs ih =>
    unfold declareAll at ih ⊢
    simp only [List.foldl_cons]
    exact ih _ (declare_mem st f h)

theorem declareAll_nodup (fs : List Fact) (st : EngineState)
    (h : NodupStore st) : NodupStore (declareAll st fs) := by
  induction fs generalizing st with
  | nil => exact h
  | cons f fs ih =>
    unfold declareAll at ih ⊢
    simp only [List.foldl_cons]
    exact ih _ (declare_nodup st f h)

theorem applicaEsito_fired (st : EngineState) (es : Esito) :
    (applicaEsito st es).fired = st.fired := by
  unfold applicaEsito
  rw [declareAll_fired]

theorem applicaEsito_mem (st : EngineState) (es : Esito) {e : Nat × Fact}
    (h : e ∈ st.store) : e ∈ (applicaEsito st es).store := by
  unfold applicaEsito
  exact declareAll_mem _ _ h

theorem applicaEsito_nodup (st : EngineState) (es : Esito)
    (h : NodupStore st) : NodupStore (applicaEsito st es) := by
  unfold applicaEsito
  exact declareAll_nodup _ _ h

theorem fireActivation_fired {st : EngineState} {a : Activation}
    {st1 : EngineState} (h : fireActivation st a = some st1) :
    st1.fired = a :: st.fired := by
  unfold fireActivation at h
  cases hc : corpoRegola a.1 a.2 (preFire st a) with
  | none => rw [hc] at h; simp at h
  | some es =>
    rw [hc] at h
    simp at h
    subst h
    rw [applicaEsito_fired]
    rfl

theorem fireActivation_mem {st : EngineState} {a : Activation}
    {st1 : EngineState} (h : fireActivation st a = some st1) {e : Nat × Fact}
    (he : e ∈ st.store) : e ∈ st1.store := by
  unfold fireActivation at h
  cases hc : corpoRegola a.1 a.2 (preFire st a) with
  | none => rw [hc] at h; simp at h
  | some es =>
    rw [hc] at h
    simp at h
    subst h
    exact applicaEsito_mem _ _ he

theorem fireActivation_nodup {st : EngineState} {a : Activation}
    {st1 : EngineState} (h : fireActivation st a = some st1)
    (hn : NodupStore st) : NodupStore st1 := by
  unfold fireActivation at h
  cases hc : corpoRegola a.1 a.2 (preFire st a) with
  | none => rw [hc] at h; simp at h
  | some es =>
    rw [hc] at h
    simp at h
    subst h
    exact applicaEsito_nodup _ _ hn

theorem steps_quiescent {st : EngineState} (h : selectActivation st = none) :
    ∀ n, steps n st = some st := by
  intro n
  cases n with
  | zero => rfl
  | succ n => rw [steps]; simp only [h]

theorem steps_mono {n : Nat} {st st1 : EngineState}
    (h : steps n st = some st1) :
    (∀ e ∈ st.store, e ∈ st1.store) ∧ (∀ a ∈ st.fired, a ∈ st1.fired) := by
  induction n generalizing st with
  | zero =>
    simp only [steps, Option.some.injEq] at h
    subst h; exact ⟨fun _ he => he, fun _ ha => ha⟩
  | succ n ih =>
    rw [steps] at h
    cases hs : selectActivation st with
    | none =>
      simp only [hs, Option.some.injEq] at h
      subst h; exact ⟨fun _ he => he, fun _ ha => ha⟩
    | some a =>
      simp only [hs] at h
      cases hf : fireActivation st a with
      | none => simp only [hf] at h; exact Option.noConfusion h
      | some st2 =>
        simp only [hf] at h
        obtain ⟨h1, h2⟩ := ih h
        refine ⟨fun e he => h1 e (fireActivation_mem hf he), fun b hb => ?_⟩
        have : b ∈ st2.fired := by
          rw [fireActivation_fired hf]
          exact List.mem_cons_of_mem _ hb
        exact h2 b this

theorem steps_nodup {n : Nat} {st st1 : EngineState}
    (h : steps n st = some st1) (hn : NodupStore st) : NodupStore st1 := by
  induction n generalizing st with
  | zero =>
    simp only [steps, Option.some.injEq] at h
    subst h; exact hn
  | succ n ih =>
    rw [steps] at h
    cases hs : selectActivation st with
    | none =>
      simp only [hs, Option.some.injEq] at h
      subst h; exact hn
    | some a =>
      simp only [hs] at h
      cases hf : fireActivation st a with
      | none => simp only [hf] at h; exact Option.noConfusion h
      | some st2 =>
        simp only [hf] at h
        exact ih h (fireActivation_nodup hf hn)

theorem steps_add (m n : Nat) (st : EngineState) :
    steps (m + n) st = (steps m st).bind (steps n) := by
  induction m generalizing st with
  | zero =>
    simp only [Nat.zero_add, steps, Option.some_bind]
  | succ m ih =>
    have hsa : m + 1 + n = (m + n) + 1 := by omega
    rw [hsa]
    cases hs : selectActivation st with
    | none =>
      rw [steps_quiescent hs, steps_quiescent hs, Option.some_bind,
          steps_quiescent hs]
    | some a =>
      cases hf : fireActivation st a with
      | none => simp only [steps, hs, hf, Option.none_bind]
      | some st2 =>
        simp only [steps, hs, hf]
        exact ih st2

theorem steps_intermedi {n : Nat} {st stF : EngineState}
    (hF : steps n st = some stF) (hq : selectActivation stF = none) :
    ∀ k st1, steps k st = some st1 → ∀ e ∈ st1.store, e ∈ stF.store := by
  intro k st1 hk e he
  rcases le_or_lt k n with h | h
  · have hkn : k + (n - k) = n := by omega
    have hsplit : steps (k + (n - k)) st = some stF := by rw [hkn]; exact hF
    rw [steps_add, hk, Option.some_bind] at hsplit
    exact (steps_mono hsplit).1 e he
  · have hkn : k = n + (k - n) := by omega
    rw [hkn, steps_add, hF, Option.some_bind, steps_quiescent hq] at hk
    injection hk with hk
    subst hk
    exact he

theorem mem_agenda {st : EngineState} {i : Nat} {b : Binding} :
    (i, b) ∈ agenda st ↔
      ∃ r, regole.get? i = some r ∧ b ∈ ruleBindings st.store r.conds ∧
        (i, b) ∉ st.fired := by
  unfold agenda
  simp only [List.mem_flatMap, List.mem_map, List.mem_filter,
    Bool.not_eq_true', Prod.mk.injEq]
  constructor
  · rintro ⟨⟨j, r⟩, hjr, b2, ⟨hb2, hnc⟩, hj, hb⟩
    subst hj; subst hb
    rw [List.mk_mem_enum_iff_getElem?] at hjr
    refine ⟨r, ?_, hb2, ?_⟩
    · rw [List.get?_eq_getElem?]; exact hjr
    · intro hmem
      rw [show (List.contains st.fired (j, b2)) = List.elem (j, b2) st.fired from rfl,
        List.elem_eq_mem, decide_eq_false_iff_not] at hnc
      exact hnc hmem
  · rintro ⟨r, hr, hb, hnf⟩
    refine ⟨(i, r), ?_, b, ⟨hb, ?_⟩, rfl, rfl⟩
    · rw [List.mk_mem_enum_iff_getElem?, ← List.get?_eq_getElem?]; exact hr
    · rw [show (List.contains st.fired (i, b)) = List.elem (i, b) st.fired from rfl,
        List.elem_eq_mem, decide_eq_false_iff_not]
      exact hnf

theorem fired_not_in_agenda {st : EngineState} {a : Activation}
    (h : a ∈ st.fired) : a ∉ agenda st := by
  intro hmem
  obtain ⟨i, b⟩ := a
  rw [mem_agenda] at hmem
  obtain ⟨r, _, _, hnf⟩ := hmem
  exact hnf h

theorem keyGt_iff (a b : Activation) :
    keyGt a b = true ↔
      (salienceOf b.1 < salienceOf a.1 ∨
        (salienceOf a.1 = salienceOf b.1 ∧ enabledStamp b.2 < enabledStamp a.2)) := by
  unfold keyGt
  exact decide_eq_true_iff

theorem keyGt_trans {a b c : Activation} (h1 : keyGt a b = true)
    (h2 : keyGt b c = true) : keyGt a c = true := by
  rw [keyGt_iff] at h1 h2 ⊢
  rcases h1 with h1 | ⟨h1e, h1s⟩
  · rcases h2 with h2 | ⟨h2e, h2s⟩
    · exact Or.inl (lt_trans h2 h1)
    · exact Or.inl (h2e ▸ h1)
  · rcases h2 with h2 | ⟨h2e, h2s⟩
    · exact Or.inl (lt_of_lt_of_le h2 (le_of_eq h1e.symm))
    · exact Or.inr ⟨h1e.trans h2e, lt_trans h2s h1s⟩

theorem keyGt_total {a b : Activation} (h : keyGt a b = false) :
    keyGt b a = true ∨
      (salienceOf a.1 = salienceOf b.1 ∧ enabledStamp a.2 = enabledStamp b.2) := by
  have h2 : ¬(keyGt a b = true) := by rw [h]; exact Bool.false_ne_true
  rw [keyGt_iff] at h2
  push_neg at h2
  obtain ⟨hle, himp⟩ := h2
  rcases lt_or_eq_of_le hle with hlt | heq
  · exact Or.inl ((keyGt_iff b a).2 (Or.inl hlt))
  · have hstamp := himp heq
    rcases lt_or_eq_of_le hstamp with hslt | hseq
    · exact Or.inl ((keyGt_iff b a).2 (Or.inr ⟨heq.symm, hslt⟩))
    · exact Or.inr ⟨heq, hseq⟩

theorem keyGt_congr {a c : Activation} (r : Activation)
    (he : salienceOf a.1 = salienceOf c.1)
    (hs : enabledStamp a.2 = enabledStamp c.2) :
    keyGt r a = keyGt r c := by
  unfold keyGt
  rw [he, hs]

theorem migliore_spec (l : List Activation) (a : Activation) :
    ∃ l1 l2, a :: l = l1 ++ migliore l a :: l2 ∧
      (∀ b ∈ l1, keyGt (migliore l a) b = true) ∧
      (∀ b ∈ l2, keyGt b (migliore l a) = false) := by
  induction l generalizing a with
  | nil =>
    exact ⟨[], [], rfl, fun b hb => absurd hb (List.not_mem_nil b),
      fun b hb => absurd hb (List.not_mem_nil b)⟩
  | cons c rest ih =>
    have hstep : migliore (c :: rest) a =
        migliore rest (if keyGt c a then c else a) := by
      unfold migliore
      rw [List.foldl_cons]
    by_cases hc : keyGt c a = true
    · rw [if_pos hc] at hstep
      obtain ⟨l1, l2, hsplit, hP1, hP2⟩ := ih c
      rw [hstep]
      have hra : keyGt (migliore rest c) a = true := by
        cases l1 with
        | nil =>
          simp only [List.nil_append] at hsplit
          injection hsplit with h1 h2
          rw [h1.symm]; exact hc
        | cons h1 t1 =>
          simp only [List.cons_append] at hsplit
          injection hsplit with hh1 hh2
          have hmem : c ∈ h1 :: t1 := by
            rw [← hh1]; exact List.mem_cons_self c t1
          exact keyGt_trans (hP1 c hmem) hc
      refine ⟨a :: l1, l2, ?_, ?_, hP2⟩
      · rw [List.cons_append, ← hsplit]
      · intro b hb
        rcases List.mem_cons.1 hb with hb | hb
        · rw [hb]; exact hra
        · exact hP1 b hb
    · rw [if_neg hc] at hstep
      have hcf : keyGt c a = false := Bool.eq_false_iff.2 hc
      obtain ⟨l1, l2, hsplit, hP1, hP2⟩ := ih a
      rw [hstep]
      cases l1 with
      | nil =>
        simp only [List.nil_append] at hsplit
        injection hsplit with hma1 hl2
        have hma : migliore rest a = a := hma1.symm
        refine ⟨[], c :: rest, ?_, ?_, ?_⟩
        · rw [List.nil_append, hma]
        · intro b hb; exact absurd hb (List.not_mem_nil b)
        · intro b hb
          rcases List.mem_cons.1 hb with hb | hb
          · rw [hb, hma]; exact hcf
          · rw [hma]; rw [hl2] at hb
            have := hP2 b hb
            rw [hma] at this; exact this
      | cons h1 t1 =>
        simp only [List.cons_append] at hsplit
        injection hsplit with hh1 hrest
        have hh : h1 = a := hh1.symm
        have hra : keyGt (migliore rest a) a = true := by
          refine hP1 a ?_
          rw [hh]
          exact List.mem_cons_self a t1
        have hrc : keyGt (migliore rest a) c = true := by
          rcases keyGt_total hcf with hca | ⟨he, hs⟩
          · exact keyGt_trans hra hca
          · rw [keyGt_congr (migliore rest a) he hs]
            exact hra
        refine ⟨a :: c :: t1, l2, ?_, ?_, hP2⟩
        · rw [List.cons_append, List.cons_append, ← hrest]
        · intro b hb
          rcases List.mem_cons.1 hb with hb | hb
          · rw [hb]; exact hra
          · rcases List.mem_cons.1 hb with hb | hb
            · rw [hb]; exact hrc
            · refine hP1 b ?_
              rw [hh]
              exact List.mem_cons_of_mem a hb

theorem selectActivation_spec {st : EngineState} {a : Activation}
    (h : selectActivation st = some a) :
    ∃ l1 l2, agenda st = l1 ++ a :: l2 ∧
      (∀ b ∈ l1, keyGt a b = true) ∧
      (∀ b ∈ l2, keyGt b a = false) := by
  unfold selectActivation at h
  cases hag : agenda st with
  | nil => rw [hag] at h; exact Option.noConfusion h
  | cons h0 t =>
    rw [hag] at h
    injection h with h
    subst h
    obtain ⟨l1, l2, hsplit, hP1, hP2⟩ := migliore_spec t h0
    exact ⟨l1, l2, by rw [← hsplit], hP1, hP2⟩

theorem selectActivation_mem {st : EngineState} {a : Activation}
    (h : selectActivation st = some a) : a ∈ agenda st := by
  obtain ⟨l1, l2, hsplit, _, _⟩ := selectActivation_spec h
  rw [hsplit]
  exact List.mem_append.2 (Or.inr (List.mem_cons_self a l2))

theorem selectActivation_max {st : EngineState} {a : Activation}
    (h : selectActivation st = some a) :
    ∀ b ∈ agenda st, salienceOf b.1 ≤ salienceOf a.1 ∧
      (salienceOf b.1 = salienceOf a.1 → enabledStamp b.2 ≤ enabledStamp a.2) := by
  obtain ⟨l1, l2, hsplit, hP1, hP2⟩ := selectActivation_spec h
  intro b hb
  rw [hsplit] at hb
  rcases List.mem_append.1 hb with hb | hb
  · have := (keyGt_iff a b).1 (hP1 b hb)
    rcases this with hlt | ⟨he, hs⟩
    · exact ⟨le_of_lt hlt, fun heq => absurd heq (ne_of_lt hlt)⟩
    · exact ⟨le_of_eq he.symm, fun _ => le_of_lt hs⟩
  · rcases List.mem_cons.1 hb with hb | hb
    · subst hb; exact ⟨le_refl _, fun _ => le_refl _⟩
    · rcases keyGt_total (hP2 b hb) with hab | ⟨he, hs⟩
      · have := (keyGt_iff a b).1 hab
        rcases this with hlt | ⟨he, hs⟩
        · exact ⟨le_of_lt hlt, fun heq => absurd heq (ne_of_lt hlt)⟩
        · exact ⟨le_of_eq he.symm, fun _ => le_of_lt hs⟩
      · exact ⟨le_of_eq he, fun _ => le_of_eq hs⟩

theorem nessuna_bindings_vuote {st : EngineState}
    (h : condSat st.store (.existsF "candidato") = true) :
    ruleBindings st.store [Cond.eqF "azione" "trovaRicetta",
      Cond.notC (.existsF "candidato")] = [] := by
  have h2 : condMatches st.store (Cond.notC (.existsF "candidato")) = [] := by
    unfold condMatches
    rw [if_pos h]
  have h3 : ruleBindings st.store [Cond.notC (.existsF "candidato")] = [] := by
    unfold ruleBindings
    rw [h2]
    rfl
  unfold ruleBindings
  rw [h3]
  simp

/-- Claim C1: with working memory seeded with `ingrediente=pasta`,
`ingrediente=pomodoro`, `tempo_disponibile=medio` and
`azione=trovaRicetta`, exactly one candidate-producing activation fires
(`suggerisci_pasta_pomodoro`, asserting `candidato="Pasta al Pomodoro"`);
`scegli_candidati` then auto-selects the single distinct candidate
without prompting (no `promptCandidates` event) and asserts
`ricetta_suggerita="Pasta al Pomodoro"`; `valuta_ricetta_con_bayes` calls
the Evidence Evaluator exactly once; and `azione=termina` is asserted. -/
theorem scenario_unico_candidato :
    ((steps 10 scenarioUnicoCandidato).map
        (fun s => (s.firedLog, s.trace, fattiDi s))) =
      some ([("suggerisci_pasta_pomodoro", false), ("scegli_candidati", false),
             ("valuta_ricetta_con_bayes", false), ("stampare_risultato_finale", false),
             ("terminare_esecuzione", true)],
            [Event.evalBayes "Pasta al Pomodoro" (some "medio"),
             Event.ontologyLookup "Pasta al Pomodoro"],
            [⟨"ingrediente", "pasta"⟩, ⟨"ingrediente", "pomodoro"⟩,
             ⟨"tempo_disponibile", "medio"⟩, ⟨"azione", "trovaRicetta"⟩,
             ⟨"candidato", "Pasta al Pomodoro"⟩,
             ⟨"ricetta_suggerita", "Pasta al Pomodoro"⟩,
             ⟨"azione", "valutaRicetta"⟩,
             ⟨"valutazione_ricetta", "Probabilità di successo stimata: 80%"⟩,
             ⟨"azione", "stampaRisultato"⟩, ⟨"azione", "termina"⟩]) ∧
    ((steps 10 scenarioUnicoCandidato).map
        (fun s => (contaAccensioni s.firedLog "suggerisci_pasta_pomodoro",
                   contaAccensioni s.firedLog "suggerisci_uova_strapazzate",
                   contaAccensioni s.firedLog "suggerisci_insalata",
                   contaPrompt s.trace, contaEval s.trace))) =
      some (1, 0, 0, 0, 1) := by
  exact ⟨by decide, by decide⟩

/-- Claim C2, counterexample: in the consultation with an empty
ingredient list, the rule `chiedi_ingredienti` asserts the halt fact
`azione="termina"`, yet the engine does not halt: a further activation
(`terminare_esecuzione`) fires afterwards — its log entry records that
the halt fact was already present when it fired.  This refutes "after a
terminal action has fired, no further activation fires". -/
theorem termina_non_arresta_il_motore :
    ((steps 10 scenarioVuoto).map (fun s => s.firedLog)) =
      some [("chiedi_ingredienti", false), ("terminare_esecuzione", true)] ∧
    ((steps 10 scenarioVuoto).map
        (fun s => (s.firedLog.filter (fun p => p.2)).length)) = some 1 := by
  exact ⟨by decide, by decide⟩

/-- Claim C2, amended: no rule action is flagged as terminal (none calls
a halt primitive), so asserting `azione="termina"` does not stop the
engine; the pending activations — in this run exactly one, the rule
`terminare_esecuzione` (salience −10) — still fire after the halt fact is
asserted, and the consultation ends by agenda quiescence. -/
theorem termina_seguito_da_quiescenza :
    ((steps 10 scenarioVuoto).map
        (fun s => (s.firedLog, fattiDi s, (selectActivation s).isNone))) =
      some ([("chiedi_ingredienti", false), ("terminare_esecuzione", true)],
            [⟨"azione", "chiediIngredienti"⟩, ⟨"azione", "termina"⟩],
            true) := by
  decide

/-- Claim C10: when the user answers the ingredient prompt with an empty
line, `chiedi_ingredienti_disponibili` returns the empty list and the
rule `chiedi_ingredienti` asserts `azione="termina"` without asserting
any `ingrediente` fact and without asserting `azione="chiediTempo"`; the
consultation terminates (quiescence) without `chiedi_tempo` or
`chiedi_preferenze` ever firing and without any `candidato` or
`ricetta_suggerita` fact: the final store holds exactly the seed fact and
the halt fact. -/
theorem ingredienti_vuoti_terminano :
    chiedi_ingredienti_disponibili "" = [] ∧
    ((steps 10 scenarioVuoto).map
        (fun s => (s.firedLog, s.trace, fattiDi s, (selectActivation s).isNone))) =
      some ([("chiedi_ingredienti", false), ("terminare_esecuzione", true)], [],
            [⟨"azione", "chiediIngredienti"⟩, ⟨"azione", "termina"⟩], true) := by
  exact ⟨by decide, by decide⟩

/-- Claim C5: in a consultation whose ingredient matches no candidate
rule, the fallback rule `nessuna_ricetta_trovata` fires exactly once,
invokes the partial-match lookup with the asserted ingredients
(`partialSearch ["riso"]`), and asserts `azione="termina"`; no
`ricetta_suggerita` fact is asserted at any point of that run; and, in
general, while some `candidato` fact is present the fallback rule has no
activation on the agenda (negation as failure). -/
theorem fallback_senza_candidati :
    (((steps 10 scenarioSenzaCandidati).map
        (fun s => (s.firedLog, s.trace, fattiDi s))) =
      some ([("chiedi_ingredienti", false), ("chiedi_tempo", false),
             ("chiedi_preferenze", false), ("nessuna_ricetta_trovata", false),
             ("terminare_esecuzione", true)],
            [Event.partialSearch ["riso"]],
            [⟨"azione", "chiediIngredienti"⟩, ⟨"ingrediente", "riso"⟩,
             ⟨"azione", "chiediTempo"⟩, ⟨"tempo_disponibile", "medio"⟩,
             ⟨"azione", "chiediPreferenze"⟩, ⟨"azione", "trovaRicetta"⟩,
             ⟨"azione", "termina"⟩])) ∧
    (∀ k st1, steps k scenarioSenzaCandidati = some st1 →
        ∀ f ∈ fattiDi st1, f.field ≠ "ricetta_suggerita") ∧
    (∀ st : EngineState, (∃ e ∈ st.store, (e.2).field = "candidato") →
        ∀ b : Binding, (7, b) ∉ agenda st) := by
  refine ⟨by decide, ?_, ?_⟩
  · intro k st1 hk f hf
    cases hF : steps 6 scenarioSenzaCandidati with
    | none =>
      have hdec : (steps 6 scenarioSenzaCandidati).isSome = true := by decide
      rw [hF] at hdec
      exact Bool.noConfusion hdec
    | some stF =>
      have hq : selectActivation stF = none := by
        have hdec : (steps 6 scenarioSenzaCandidati).map
            (fun s => (selectActivation s).isNone) = some true := by decide
        rw [hF] at hdec
        simp only [Option.map_some'] at hdec
        injection hdec with hdec
        exact Option.isNone_iff_eq_none.1 hdec
      have hfacts : fattiDi stF =
          [⟨"azione", "chiediIngredienti"⟩, ⟨"ingrediente", "riso"⟩,
           ⟨"azione", "chiediTempo"⟩, ⟨"tempo_disponibile", "medio"⟩,
           ⟨"azione", "chiediPreferenze"⟩, ⟨"azione", "trovaRicetta"⟩,
           ⟨"azione", "termina"⟩] := by
        have hdec : (steps 6 scenarioSenzaCandidati).map fattiDi =
            some [⟨"azione", "chiediIngredienti"⟩, ⟨"ingrediente", "riso"⟩,
             ⟨"azione", "chiediTempo"⟩, ⟨"tempo_disponibile", "medio"⟩,
             ⟨"azione", "chiediPreferenze"⟩, ⟨"azione", "trovaRicetta"⟩,
             ⟨"azione", "termina"⟩] := by decide
        rw [hF] at hdec
        simp only [Option.map_some'] at hdec
        injection hdec
      obtain ⟨e, he, hef⟩ := List.mem_map.1 hf
      have heF : e ∈ stF.store := steps_intermedi hF hq k st1 hk e he
      have hfF : f ∈ fattiDi stF := by
        rw [← hef]
        exact List.mem_map_of_mem _ heF
      rw [hfacts] at hfF
      fin_cases hfF <;> decide
  · intro st hcand b hb
    rw [mem_agenda] at hb
    obtain ⟨r, hr, hbind, _⟩ := hb
    have h7 : regole.get? 7 = some ⟨"nessuna_ricetta_trovata",
        [Cond.eqF "azione" "trovaRicetta", Cond.notC (.existsF "candidato")], 0⟩ := by
      rfl
    rw [h7] at hr
    injection hr with hr
    subst hr
    have hsat : condSat st.store (.existsF "candidato") = true := by
      obtain ⟨e, he, hef⟩ := hcand
      unfold condSat
      rw [List.any_eq_true]
      exact ⟨e, he, by rw [beq_iff_eq]; exact hef⟩
    rw [nessuna_bindings_vuote hsat] at hbind
    exact List.not_mem_nil b hbind

/-- Witness for claim C5: the general conjuncts applied at concrete
inputs — every fact of the initial state of the no-candidate consultation
has a field other than `ricetta_suggerita`, and in a state whose store
holds a `candidato` fact the fallback rule has no activation on the
agenda. -/
theorem fallback_senza_candidati_test :
    (∀ f ∈ fattiDi scenarioSenzaCandidati, f.field ≠ "ricetta_suggerita") ∧
    (∀ b : Binding, (7, b) ∉ agenda (statoConFatti
        [⟨"azione", "trovaRicetta"⟩, ⟨"candidato", "Pasta al Pomodoro"⟩]
        [] (.ok (mkRat 4 5)) (fun _ => none))) := by
  constructor
  · exact fallback_senza_candidati.2.1 0 scenarioSenzaCandidati rfl
  · exact fallback_senza_candidati.2.2 _
      ⟨(1, ⟨"candidato", "Pasta al Pomodoro"⟩), by decide, by decide⟩

/-- Claim C3: the scheduler's choice is total and deterministic (it is a
function of the state): whenever an activation is selected it belongs to
the agenda, no agenda entry has strictly higher salience, among
equal-salience entries none has a more recently enabled binding, and any
remaining ties are resolved to the earliest agenda entry — the agenda
being listed in rule declaration order, then binding insertion order
(every strictly earlier entry is strictly beaten).  Concretely, in a full
consultation `chiedi_ingredienti` (salience 10) fires before
`chiedi_tempo` (9), before `chiedi_preferenze` (8), before the candidate
rule (1). -/
theorem ordinamento_per_salienza :
    (∀ (st : EngineState) (a : Activation), selectActivation st = some a →
      a ∈ agenda st ∧
      (∀ b ∈ agenda st, salienceOf b.1 ≤ salienceOf a.1 ∧
        (salienceOf b.1 = salienceOf a.1 → enabledStamp b.2 ≤ enabledStamp a.2)) ∧
      (∃ l1 l2, agenda st = l1 ++ a :: l2 ∧ ∀ b ∈ l1, keyGt a b = true)) ∧
    ((steps 12 scenarioInterattivo).map (fun s => s.firedLog.map Prod.fst)) =
      some ["chiedi_ingredienti", "chiedi_tempo", "chiedi_preferenze",
            "suggerisci_pasta_pomodoro", "scegli_candidati",
            "valuta_ricetta_con_bayes", "stampare_risultato_finale",
            "terminare_esecuzione"] := by
  constructor
  · intro st a h
    obtain ⟨l1, l2, hsplit, hP1, _⟩ := selectActivation_spec h
    exact ⟨selectActivation_mem h, selectActivation_max h, l1, l2, hsplit, hP1⟩
  · decide

/-- Witness for claim C3: the selection property applied at the seeded
single-candidate scenario, where the scheduler picks the activation of
`suggerisci_pasta_pomodoro` (rule index 3, salience 1) over the pending
fallback activation (rule index 7, salience 0). -/
theorem ordinamento_per_salienza_test :
    ((3, [some (3, ⟨"azione", "trovaRicetta"⟩), some (0, ⟨"ingrediente", "pasta"⟩),
          some (1, ⟨"ingrediente", "pomodoro"⟩),
          some (2, ⟨"tempo_disponibile", "medio"⟩)]) : Activation) ∈
      agenda scenarioUnicoCandidato ∧
    (∀ b ∈ agenda scenarioUnicoCandidato, salienceOf b.1 ≤ salienceOf 3) := by
  have h := ordinamento_per_salienza.1 scenarioUnicoCandidato
    (3, [some (3, ⟨"azione", "trovaRicetta"⟩), some (0, ⟨"ingrediente", "pasta"⟩),
         some (1, ⟨"ingrediente", "pomodoro"⟩),
         some (2, ⟨"tempo_disponibile", "medio"⟩)]) (by decide)
  exact ⟨h.1, fun b hb => (h.2.1 b hb).1⟩

/-- Claim C4, counterexample: with two candidate rules satisfied
simultaneously (`uova, lattuga, pomodoro` in 10 minutes), the engine does
NOT present the candidate list exactly once: `scegli_candidati` has one
activation per `candidato` binding, so it fires twice and the same
two-candidate list is prompted twice (`contaPrompt = 2`), refuting
"presented for manual selection exactly once — never prompted a second
time". -/
theorem due_candidati_doppio_prompt :
    ((steps 15 scenarioDueCandidati).map
        (fun s => (contaAccensioni s.firedLog "scegli_candidati",
                   contaPrompt s.trace))) = some (2, 2) ∧
    ((steps 15 scenarioDueCandidati).map
        (fun s => s.trace.filter (fun e => match e with
          | Event.promptCandidates _ => true | _ => false))) =
      some [Event.promptCandidates ["Uova Strapazzate", "Insalata Mista"],
            Event.promptCandidates ["Uova Strapazzate", "Insalata Mista"]] := by
  exact ⟨by decide, by decide⟩

/-- Claim C4, amended: when two distinct `candidato` facts are asserted,
`scegli_candidati` fires once per candidato binding, so the candidate
list is presented once per firing — twice in total for two candidates —
and each presentation proceeds only after an integer between 1 and the
number of candidates is supplied (`leggi_scelta_ricetta` returns only
in-range selections). -/
theorem scelta_candidati_per_binding :
    (∀ (n : Nat) (inputs : List String) (k : Nat) (rest : List String),
      leggi_scelta_ricetta n inputs = some (k, rest) → 1 ≤ k ∧ k ≤ n) ∧
    ((steps 15 scenarioDueCandidati).map
        (fun s => (contaAccensioni s.firedLog "scegli_candidati",
                   contaPrompt s.trace,
                   (fattiDi s).filter (fun f => f.field == "candidato"),
                   (fattiDi s).filter (fun f => f.field == "ricetta_suggerita")))) =
      some (2, 2,
            [⟨"candidato", "Uova Strapazzate"⟩, ⟨"candidato", "Insalata Mista"⟩],
            [⟨"ricetta_suggerita", "Uova Strapazzate"⟩,
             ⟨"ricetta_suggerita", "Insalata Mista"⟩]) := by
  constructor
  · intro n inputs
    induction inputs with
    | nil => intro k rest h; exact Option.noConfusion h
    | cons r rest2 ih =>
      intro k rest h
      rw [leggi_scelta_ricetta] at h
      cases hp : pyInt? (pyStrip r) with
      | none =>
        simp only [hp] at h
        exact ih k rest h
      | some scelta =>
        simp only [hp] at h
        by_cases hr : scelta < 1 ∨ (n : Int) < scelta
        · rw [if_pos hr] at h
          exact ih k rest h
        · rw [if_neg hr] at h
          injection h with h
          injection h with h1 h2
          push_neg at hr
          obtain ⟨hge, hle⟩ := hr
          subst h1
          omega
  · decide

/-- Witness for claim C4: the in-range property applied at a concrete
prompt — with two candidates and input line `"2"`, the selection loop
returns 2, which lies between 1 and 2. -/
theorem scelta_candidati_per_binding_test :
    1 ≤ 2 ∧ 2 ≤ 2 := by
  exact scelta_candidati_per_binding.1 2 ["2"] 2 [] (by decide)

/-- Claim C6: refraction — an activation in the refraction set never
appears on the agenda; firing adds the activation to the refraction set;
the refraction set only grows along a run (this rule base never retracts,
so supporting facts remain asserted and a fired activation is suppressed
in every later state of the run); and under explicit retraction the
activation is dropped from the refraction set exactly when it lost a
supporting fact — a re-asserted fact then gets a fresh stamp, so matching
resumes on a fresh binding. -/
theorem rifrazione :
    (∀ (st : EngineState) (a : Activation), a ∈ st.fired → a ∉ agenda st) ∧
    (∀ (st : EngineState) (a : Activation) (st1 : EngineState),
      fireActivation st a = some st1 → a ∈ st1.fired) ∧
    (∀ (n : Nat) (st st1 : EngineState), steps n st = some st1 →
      ∀ a ∈ st.fired, a ∈ st1.fired) ∧
    (∀ (st : EngineState) (a : Activation) (st1 : EngineState) (n : Nat)
        (st2 : EngineState), fireActivation st a = some st1 →
      steps n st1 = some st2 → a ∉ agenda st2) ∧
    (∀ (st : EngineState) (f : Fact) (a : Activation), a ∈ st.fired →
      (supportiPresenti (retract st f).store a.2 = false →
        a ∉ (retract st f).fired) ∧
      (supportiPresenti (retract st f).store a.2 = true →
        a ∈ (retract st f).fired)) := by
  refine ⟨fun st a h => fired_not_in_agenda h, ?_, ?_, ?_, ?_⟩
  · intro st a st1 h
    rw [fireActivation_fired h]
    exact List.mem_cons_self a st.fired
  · intro n st st1 h
    exact (steps_mono h).2
  · intro st a st1 n st2 hf hs
    have h1 : a ∈ st1.fired := by
      rw [fireActivation_fired hf]
      exact List.mem_cons_self a st.fired
    exact fired_not_in_agenda ((steps_mono hs).2 a h1)
  · intro st f a h
    constructor
    · intro hsup hmem
      unfold retract at hmem
      rw [List.mem_filter] at hmem
      rw [show (retract st f).store =
          st.store.filter (fun e => !(e.2 == f)) from rfl] at hsup
      rw [hmem.2] at hsup
      exact Bool.noConfusion hsup
    · intro hsup
      unfold retract
      rw [List.mem_filter]
      refine ⟨h, ?_⟩
      rw [show (retract st f).store =
          st.store.filter (fun e => !(e.2 == f)) from rfl] at hsup
      exact hsup

/-- Witness for claim C6: the suppression property applied at a concrete
state — after the empty-ingredient consultation fires its first rule, the
activation of `chiedi_ingredienti` is in the refraction set of every
later state, so it is absent from the final agenda even though its
supporting fact `azione="chiediIngredienti"` is still asserted. -/
theorem rifrazione_test :
    ((0, [some (0, ⟨"azione", "chiediIngredienti"⟩)]) : Activation) ∉
      agenda { scenarioVuoto with
        fired := [(0, [some (0, ⟨"azione", "chiediIngredienti"⟩)])] } := by
  exact rifrazione.1 _ _ (List.mem_singleton.2 rfl)

/-- Claim C7: asserting a fact whose field/value content is already in
the store is a no-op (the state, hence size and contents, is unchanged);
a single assertion preserves content-distinctness of the store; every
state reached by the engine from a content-distinct state is
content-distinct; and the consultation's initial state is
content-distinct — so no reachable store holds two facts with identical
content. -/
theorem nessun_fatto_duplicato :
    (∀ (st : EngineState) (f : Fact),
      st.store.any (fun e => e.2 == f) = true → declare st f = st) ∧
    (∀ (st : EngineState) (f : Fact), NodupStore st → NodupStore (declare st f)) ∧
    (∀ (n : Nat) (st st1 : EngineState), NodupStore st →
      steps n st = some st1 → NodupStore st1) ∧
    (∀ (inputs : List String) (bayes : BayesOutcome)
        (onto : String → Option Dettagli),
      NodupStore (statoIniziale inputs bayes onto)) := by
  refine ⟨?_, fun st f h => declare_nodup st f h,
    fun n st st1 h hs => steps_nodup hs h, ?_⟩
  · intro st f h
    unfold declare
    rw [if_pos h]
  · intro inputs bayes onto
    unfold NodupStore fattiDi statoIniziale
    simp

/-- Witness for claim C7: the no-op property applied at a concrete state
— re-declaring the already-present fact `azione="chiediIngredienti"` in
the initial consultation state leaves the state unchanged — together
with content-distinctness of a concrete initial state. -/
theorem nessun_fatto_duplicato_test :
    declare scenarioVuoto ⟨"azione", "chiediIngredienti"⟩ = scenarioVuoto ∧
    NodupStore (statoIniziale [] .constructionError (fun _ => none)) := by
  exact ⟨nessun_fatto_duplicato.1 _ _ (by decide),
    nessun_fatto_duplicato.2.2.2 _ _ _⟩

/-- Claim C8: malformed user input is recovered locally by re-prompting
and never escapes — `chiedi_tempo_disponibile` skips every line that is
not a positive integer and, when it returns, returns only `"poco"`,
`"medio"` or `"molto"`; the recipe-selection loop skips every line that
is not an integer in `[1, n]` and, when it returns, returns an integer in
that range.  (In the model neither function can raise; an input stream
that never supplies a valid line makes the loop block forever, which is
the `none` case, not an invalid result.) -/
theorem validazione_input :
    (∀ (inputs : List String) (t : String) (rest : List String),
      chiedi_tempo_disponibile inputs = some (t, rest) →
      t = "poco" ∨ t = "medio" ∨ t = "molto") ∧
    (∀ (n : Nat) (inputs : List String) (k : Nat) (rest : List String),
      leggi_scelta_ricetta n inputs = some (k, rest) → 1 ≤ k ∧ k ≤ n) ∧
    (∀ (r : String) (rest : List String), pyInt? (pyStrip r) = none →
      chiedi_tempo_disponibile (r :: rest) = chiedi_tempo_disponibile rest) ∧
    (∀ (n : Nat) (r : String) (rest : List String), pyInt? (pyStrip r) = none →
      leggi_scelta_ricetta n (r :: rest) = leggi_scelta_ricetta n rest) := by
  refine ⟨?_, ?_, ?_, ?_⟩
  · intro inputs
    induction inputs with
    | nil => intro t rest h; exact Option.noConfusion h
    | cons r rest2 ih =>
      intro t rest h
      rw [chiedi_tempo_disponibile] at h
      cases hp : pyInt? (pyStrip r) with
      | none =>
        simp only [hp] at h
        exact ih t rest h
      | some minuti =>
        simp only [hp] at h
        by_cases hm : minuti ≤ 0
        · rw [if_pos hm] at h
          exact ih t rest h
        · rw [if_neg hm] at h
          injection h with h
          injection h with h1 h2
          subst h1
          unfold converti_tempo_in_categoria
          split
          · exact Or.inl rfl
          · split
            · exact Or.inr (Or.inl rfl)
            · exact Or.inr (Or.inr rfl)
  · intro n inputs
    induction inputs with
    | nil => intro k rest h; exact Option.noConfusion h
    | cons r rest2 ih =>
      intro k rest h
      rw [leggi_scelta_ricetta] at h
      cases hp : pyInt? (pyStrip r) with
      | none =>
        simp only [hp] at h
        exact ih k rest h
      | some scelta =>
        simp only [hp] at h
        by_cases hr : scelta < 1 ∨ (n : Int) < scelta
        · rw [if_pos hr] at h
          exact ih k rest h
        · rw [if_neg hr] at h
          injection h with h
          injection h with h1 h2
          push_neg at hr
          obtain ⟨hge, hle⟩ := hr
          subst h1
          omega
  · intro r rest h
    rw [chiedi_tempo_disponibile]
    simp only [h]
  · intro n r rest h
    rw [leggi_scelta_ricetta]
    simp only [h]

/-- Witness for claim C8: both loops applied at concrete input streams —
after skipping the malformed line `"abc"`, thirty minutes yields the
category `"medio"`, and the selection `"2"` among three candidates lies
in `[1, 3]`. -/
theorem validazione_input_test :
    ("medio" = "poco" ∨ "medio" = "medio" ∨ "medio" = "molto") ∧
    (1 ≤ 2 ∧ 2 ≤ 3) := by
  exact ⟨validazione_input.1 ["abc", "30"] "medio" [] (by decide),
    validazione_input.2.1 3 ["abc", "2"] 2 [] (by decide)⟩

/-- Claim C9: a failing Bayesian evaluation never escapes
`calcola_rischio_o_successo_ricetta` — a network-construction error
yields the fallback string `"Valutazione non disponibile."` (without even
prompting), and an inference error, a missing `"Successo"` node or a
non-numeric probability yields `"Impossibile calcolare la stima."`; in
the seeded consultation run with a failing evaluator, that fallback
string is asserted as the `valutazione_ricetta` fact and the consultation
still reaches `azione="termina"` and quiescence. -/
theorem errore_bayes_recuperato :
    (∀ (nome : String) (fatti : Option String) (inputs : List String),
      calcola_rischio_o_successo_ricetta nome fatti .constructionError inputs =
        some ("Valutazione non disponibile.", inputs)) ∧
    (∀ (nome : String) (fatti : Option String) (inputs : List String)
        (r : String) (rest : List String) (esito : BayesOutcome),
      leggi_scelta_rete inputs = some (r, rest) →
      (esito = .inferenceError ∨ esito = .missingSuccessNode ∨
        esito = .nonNumeric) →
      calcola_rischio_o_successo_ricetta nome fatti esito inputs =
        some ("Impossibile calcolare la stima.", rest)) ∧
    ((steps 10 scenarioErroreBayes).map
        (fun s => ((fattiDi s).filter (fun f => f.field == "valutazione_ricetta"),
          terminaPresente s.store, (selectActivation s).isNone))) =
      some ([⟨"valutazione_ricetta", "Impossibile calcolare la stima."⟩],
        true, true) := by
  refine ⟨fun nome fatti inputs => rfl, ?_, by decide⟩
  intro nome fatti inputs r rest esito h h2
  rcases h2 with rfl | rfl | rfl <;>
    simp [calcola_rischio_o_successo_ricetta, h]

/-- Witness for claim C9: the recovery behaviour applied at concrete
inputs — a construction failure returns the first fallback string, and an
inference failure with the input line `"1"` returns the second. -/
theorem errore_bayes_recuperato_test :
    calcola_rischio_o_successo_ricetta "Pasta al Pomodoro" (some "medio")
      .constructionError ["1"] = some ("Valutazione non disponibile.", ["1"]) ∧
    calcola_rischio_o_successo_ricetta "Pasta al Pomodoro" (some "medio")
      .inferenceError ["1"] = some ("Impossibile calcolare la stima.", []) := by
  exact ⟨errore_bayes_recuperato.1 "Pasta al Pomodoro" (some "medio") ["1"],
    errore_bayes_recuperato.2.1 "Pasta al Pomodoro" (some "medio") ["1"] "1" []
      .inferenceError (by decide) (Or.inl rfl)⟩
